import Mathlib

/-
Verification of the streaming text-segmentation processor from
examples/storytelling-chatbot/src/processors.py (StoryProcessor and its
collaborators).  Text is modelled as List Char; the regex operations used by
the source (re.search, re.sub) are embedded as executable recursive
functions with the exact leftmost / lazy semantics of the Python patterns
involved.
-/

namespace Pipecat

/-- Convert a string literal to the character-list representation used
throughout this development. -/
def str (s : String) : List Char := s.data

/-- Semantics of the lazy tail of the pattern "<(.*?)>" once an opening
angle bracket has been consumed: scan for the nearest closing bracket,
failing on a newline (Python "." does not match a newline).  Returns the
payload together with the rest of the input. -/
def scanPayload : List Char → Option (List Char × List Char)
  | [] => none
  | c :: cs =>
    if c = '>' then some ([], cs)
    else if c = '\n' then none
    else
      match scanPayload cs with
      | some (p, r) => some (c :: p, r)
      | none => none

/-- Semantics of re.search with pattern "<(.*?)>": find the leftmost start
position holding an opening bracket from which a lazy match succeeds.
Returns (text before the match, payload group, text after the match). -/
def findDirective : List Char → Option (List Char × List Char × List Char)
  | [] => none
  | c :: cs =>
    if c = '<' then
      match scanPayload cs with
      | some (p, r) => some ([], p, r)
      | none =>
        match findDirective cs with
        | some (a, p, r) => some (c :: a, p, r)
        | none => none
    else
      match findDirective cs with
      | some (a, p, r) => some (c :: a, p, r)
      | none => none

/-- Does the list start with "[break]" or "[Break]"?  This is the head test
of the search pattern ".*\[[bB]reak\].*", which is compiled without the
IGNORECASE flag in the source. -/
def bbHead : List Char → Bool
  | a :: b :: c :: d :: e :: f :: g :: _ =>
    a == '[' && (b == 'b' || b == 'B') && c == 'r' && d == 'e' &&
      e == 'a' && f == 'k' && g == ']'
  | _ => false

/-- Semantics of the truthiness of re.search(".*\[[bB]reak\].*", s): the
text contains "[break]" or "[Break]" as a substring. -/
def containsBB : List Char → Bool
  | [] => false
  | l@(_ :: cs) => bbHead l || containsBB cs

/-- Does the list start with a case-insensitive "[break]"?  Head test of
the substitution pattern "\[[bB]reak\]" compiled with IGNORECASE. -/
def ciHead : List Char → Bool
  | a :: b :: c :: d :: e :: f :: g :: _ =>
    a == '[' && (b == 'b' || b == 'B') && (c == 'r' || c == 'R') &&
      (d == 'e' || d == 'E') && (e == 'a' || e == 'A') &&
      (f == 'k' || f == 'K') && g == ']'
  | _ => false

/-- Does the text contain a case-insensitive "[break]" substring? -/
def containsCI : List Char → Bool
  | [] => false
  | l@(_ :: cs) => ciHead l || containsCI cs

/-- Semantics of re.sub("\[[bB]reak\]", "", s, flags=IGNORECASE): remove
every non-overlapping case-insensitive occurrence of "[break]", scanning
left to right. -/
def removeBreaks : List Char → List Char
  | '[' :: b :: r :: e :: a :: k :: ']' :: rest =>
    if (b == 'b' || b == 'B') && (r == 'r' || r == 'R') &&
        (e == 'e' || e == 'E') && (a == 'a' || a == 'A') &&
        (k == 'k' || k == 'K')
    then removeBreaks rest
    else '[' :: removeBreaks (b :: r :: e :: a :: k :: ']' :: rest)
  | c :: cs => c :: removeBreaks cs
  | [] => []

/-- Semantics of s.replace of a newline by a space. -/
def nlToSpace (l : List Char) : List Char :=
  l.map fun c => if c = '\n' then ' ' else c

/-- The two opaque UI cue payloads CUE_ASSISTANT_TURN and CUE_USER_TURN
(defined in prompts.py, outside the sources; the spec records them as two
fixed opaque values). -/
inductive Cue where
  | assistantTurn
  | userTurn
deriving DecidableEq

/-- Frames relevant to StoryProcessor.  storyPage, storyImage and
storyPrompt are subclasses of TextFrame in the source; dailyTransportMessage,
sound and other are not TextFrames.  sound models the cached audio frames
loaded by load_sounds; other models any further frame kind. -/
inductive Frame where
  | text (s : List Char)
  | storyPage (s : List Char)
  | storyImage (s : List Char)
  | storyPrompt (s : List Char)
  | userStoppedSpeaking
  | llmFullResponseEnd
  | dailyTransportMessage (m : Cue)
  | sound (name : List Char)
  | other (id : Nat)
deriving DecidableEq

/-- Is the frame a StoryImageFrame (an image-generation request)? -/
def Frame.isImage : Frame → Bool
  | .storyImage _ => true
  | _ => false

/-- Is the frame a StoryPageFrame (a completed segment event)? -/
def Frame.isPage : Frame → Bool
  | .storyPage _ => true
  | _ => false

/-- Is the frame a DailyTransportMessageFrame (a UI cue message)? -/
def Frame.isDtm : Frame → Bool
  | .dailyTransportMessage _ => true
  | _ => false

/-- The mutable state of StoryProcessor: the text buffer and the shared
story list. -/
structure State where
  text : List Char
  story : List (List Char)
deriving DecidableEq

/-- The IMAGE PROMPT block of process_frame: search for "<(.*?)>"; on a
match, remove the first matched span (re.sub with count=1) and emit a
StoryImageFrame carrying the payload group.  The inner test on a second
closing bracket in the source guards a bare pass statement and has no
effect, so it does not appear here. -/
def directiveStage (buf : List Char) : List Char × List Frame :=
  match findDirective buf with
  | some (a, p, r) => (a ++ r, [Frame.storyImage p])
  | none => (buf, [])

/-- The STORY PAGE block of process_frame: if the buffer contains
"[break]" or "[Break]", remove all case-insensitive break markers, fold
newlines to spaces, and when more than two characters remain, append the
result to the story and emit a StoryPageFrame followed by the assistant
turn cue message; the buffer is cleared in either case. -/
def segmentStage (buf : List Char) (story : List (List Char)) :
    List Char × List (List Char) × List Frame :=
  if containsBB buf then
    if 2 < (nlToSpace (removeBreaks buf)).length then
      ([], story ++ [nlToSpace (removeBreaks buf)],
        [Frame.storyPage (nlToSpace (removeBreaks buf)),
          Frame.dailyTransportMessage Cue.assistantTurn])
    else ([], story, [])
  else (buf, story, [])

/-- The TextFrame branch of process_frame: append the chunk to the buffer,
run the directive stage, then run the segment stage on its result. -/
def processTextChunk (st : State) (c : List Char) : State × List Frame :=
  let d := directiveStage (st.text ++ c)
  let s := segmentStage d.1 st.story
  (⟨s.1, s.2.1⟩, d.2 ++ s.2.2)

/-- StoryProcessor.process_frame: the four isinstance branches of the
source, in source order, returning the new state together with the list of
frames pushed downstream in push order. -/
def processFrame (st : State) (f : Frame) : State × List Frame :=
  match f with
  | .userStoppedSpeaking =>
    (st, [.dailyTransportMessage .assistantTurn, .sound (str "talking")])
  | .text c => processTextChunk st c
  | .storyPage c => processTextChunk st c
  | .storyImage c => processTextChunk st c
  | .storyPrompt c => processTextChunk st c
  | .llmFullResponseEnd =>
    (⟨[], st.story⟩,
      [.storyPrompt st.text, .llmFullResponseEnd,
        .dailyTransportMessage .userTurn, .sound (str "listening")])
  | .dailyTransportMessage m => (st, [.dailyTransportMessage m])
  | .sound n => (st, [.sound n])
  | .other i => (st, [.other i])

/-- Feed a list of text chunks through process_frame one after the other,
collecting all pushed frames in order. -/
def runChunks : State → List (List Char) → State × List Frame
  | st, [] => (st, [])
  | st, c :: cs =>
    let r := processFrame st (.text c)
    let r2 := runChunks r.1 cs
    (r2.1, r.2 ++ r2.2)

/-- A text with no closing bracket admits no payload scan. -/
lemma scanPayload_none_of_no_gt (l : List Char) (h : '>' ∉ l) :
    scanPayload l = none := by
  induction l with
  | nil => rfl
  | cons c cs ih =>
    simp only [List.mem_cons, not_or] at h
    have hc : ¬ c = '>' := fun hh => h.1 hh.symm
    simp [scanPayload, hc, ih h.2]

/-- A text with no closing bracket contains no complete directive. -/
lemma findDirective_none_of_no_gt (l : List Char) (h : '>' ∉ l) :
    findDirective l = none := by
  induction l with
  | nil => rfl
  | cons c cs ih =>
    simp only [List.mem_cons, not_or] at h
    have hcs := ih h.2
    have hsp : scanPayload cs = none := scanPayload_none_of_no_gt cs h.2
    simp [findDirective, hsp, hcs]

/-- A text with no opening bracket contains no complete directive. -/
lemma findDirective_none_of_no_lt (l : List Char) (h : '<' ∉ l) :
    findDirective l = none := by
  induction l with
  | nil => rfl
  | cons c cs ih =>
    simp only [List.mem_cons, not_or] at h
    have hc : ¬ c = '<' := fun hh => h.1 hh.symm
    simp [findDirective, hc, ih h.2]

/-- The payload scan stops exactly at the first closing bracket when the
text before it has no closing bracket and no newline. -/
lemma scanPayload_eq (P R : List Char) (h1 : '>' ∉ P) (h2 : '\n' ∉ P) :
    scanPayload (P ++ '>' :: R) = some (P, R) := by
  induction P with
  | nil => simp [scanPayload]
  | cons p P ih =>
    simp only [List.mem_cons, not_or] at h1 h2
    have hp1 : ¬ p = '>' := fun hh => h1.1 hh.symm
    have hp2 : ¬ p = '\n' := fun hh => h2.1 hh.symm
    simp [List.cons_append, scanPayload, hp1, hp2, ih h1.2 h2.2]

/-- The directive search finds exactly the span between the first opening
bracket and the nearest closing bracket after it. -/
lemma findDirective_eq (A P R : List Char)
    (hA : '<' ∉ A) (h1 : '>' ∉ P) (h2 : '\n' ∉ P) :
    findDirective (A ++ '<' :: (P ++ '>' :: R)) = some (A, P, R) := by
  induction A with
  | nil => simp [findDirective, scanPayload_eq P R h1 h2]
  | cons a A ih =>
    simp only [List.mem_cons, not_or] at hA
    have ha : ¬ a = '<' := fun hh => hA.1 hh.symm
    simp [List.cons_append, findDirective, ha, ih hA.2]

/-- The break-marker head test is stable under extending the text. -/
lemma bbHead_append (x y : List Char) (h : bbHead x = true) :
    bbHead (x ++ y) = true := by
  rcases x with _ | ⟨a, _ | ⟨b, _ | ⟨c, _ | ⟨d, _ | ⟨e, _ | ⟨f, _ | ⟨g, rest⟩⟩⟩⟩⟩⟩⟩ <;>
    simp_all [bbHead]

/-- A break marker in a prefix stays a break marker of the whole text. -/
lemma containsBB_append_left (x y : List Char) (h : containsBB x = true) :
    containsBB (x ++ y) = true := by
  induction x with
  | nil => simp [containsBB] at h
  | cons c cs ih =>
    simp only [containsBB, Bool.or_eq_true] at h ⊢
    rcases h with h | h
    · exact Or.inl (bbHead_append (c :: cs) y h)
    · exact Or.inr (ih h)

/-- Splitting an appended pair around the first occurrence of a character
that is known to live in its left part. -/
lemma splitAtChar (u : List Char) :
    ∀ (x v y : List Char) (ch : Char), x ++ y = u ++ ch :: v → ch ∉ u →
      ch ∈ x → ∃ v1, x = u ++ ch :: v1 ∧ v = v1 ++ y := by
  induction u with
  | nil =>
    intro x v y ch heq hu hx
    cases x with
    | nil => simp at hx
    | cons a x' =>
      simp only [List.cons_append, List.nil_append] at heq
      injection heq with h1 h2
      exact ⟨x', by rw [h1]; rfl, h2.symm⟩
  | cons b u' ih =>
    intro x v y ch heq hu hx
    simp only [List.mem_cons, not_or] at hu
    cases x with
    | nil => simp at hx
    | cons a x' =>
      simp only [List.cons_append] at heq
      injection heq with h1 h2
      have hx' : ch ∈ x' := by
        rcases List.mem_cons.mp hx with h | h
        · exact absurd (h.trans h1) hu.1
        · exact h
      obtain ⟨v1, hx1, hv⟩ := ih x' v y ch h2 hu.2 hx'
      exact ⟨v1, by rw [hx1, h1]; rfl, hv⟩

/-- The segment stage never emits an image-generation request. -/
lemma segmentStage_filter_image (b : List Char) (s : List (List Char)) :
    ((segmentStage b s).2.2).filter Frame.isImage = [] := by
  rw [segmentStage]
  split_ifs <;> simp [Frame.isImage]

/-- The segment stage either clears the buffer or leaves it alone. -/
lemma segmentStage_fst (b : List Char) (s : List (List Char)) :
    (segmentStage b s).1 = [] ∨ (segmentStage b s).1 = b := by
  rw [segmentStage]
  split_ifs <;> simp

/-- A text pass in which the directive search fails runs the segment stage
directly on the appended buffer and emits nothing else. -/
lemma processTextChunk_no_dir (st : State) (c : List Char)
    (hfd : findDirective (st.text ++ c) = none) :
    processTextChunk st c =
      (⟨(segmentStage (st.text ++ c) st.story).1,
        (segmentStage (st.text ++ c) st.story).2.1⟩,
       (segmentStage (st.text ++ c) st.story).2.2) := by
  simp [processTextChunk, directiveStage, hfd]

/-- A text pass in which the directive search succeeds first emits the
image request, then runs the segment stage on the buffer with the matched
span removed. -/
lemma processTextChunk_dir (st : State) (c a p r : List Char)
    (hfd : findDirective (st.text ++ c) = some (a, p, r)) :
    processTextChunk st c =
      (⟨(segmentStage (a ++ r) st.story).1,
        (segmentStage (a ++ r) st.story).2.1⟩,
       Frame.storyImage p :: (segmentStage (a ++ r) st.story).2.2) := by
  simp [processTextChunk, directiveStage, hfd]

/-- Unfolding lemma: a text frame is handled by the text-chunk branch. -/
lemma processFrame_text (st : State) (c : List Char) :
    processFrame st (.text c) = processTextChunk st c := rfl

/-- Unfolding lemma for one step of runChunks. -/
lemma runChunks_cons (st : State) (c : List Char) (cs : List (List Char)) :
    runChunks st (c :: cs) =
      ((runChunks (processFrame st (.text c)).1 cs).1,
       (processFrame st (.text c)).2 ++
         (runChunks (processFrame st (.text c)).1 cs).2) := rfl

/-- Once the buffer and every remaining chunk are free of opening
brackets, no further image request is ever emitted. -/
lemma runChunks_no_image (cs : List (List Char)) :
    ∀ st : State, '<' ∉ st.text → (∀ c ∈ cs, '<' ∉ c) →
      ((runChunks st cs).2).filter Frame.isImage = [] := by
  induction cs with
  | nil => intro st _ _; simp [runChunks]
  | cons c cs ih =>
    intro st h1 h2
    have hbuf : '<' ∉ st.text ++ c := by
      simp only [List.mem_append, not_or]
      exact ⟨h1, h2 c (by simp)⟩
    have hfd : findDirective (st.text ++ c) = none :=
      findDirective_none_of_no_lt _ hbuf
    have hstep := processTextChunk_no_dir st c hfd
    have htext : '<' ∉ (segmentStage (st.text ++ c) st.story).1 := by
      rcases segmentStage_fst (st.text ++ c) st.story with h | h <;> rw [h]
      · simp
      · exact hbuf
    have hrest := ih ⟨(segmentStage (st.text ++ c) st.story).1,
      (segmentStage (st.text ++ c) st.story).2.1⟩ htext
      (fun c' hc' => h2 c' (by simp [hc']))
    simp only [runChunks, processFrame, hstep, List.filter_append,
      List.append_eq_nil]
    exact ⟨segmentStage_filter_image _ _, hrest⟩

/-- While the single directive of the whole stream is still incomplete in
the buffer, processing the remaining chunks emits exactly one image
request and it carries the directive payload. -/
lemma runChunks_one_image (A P B : List Char)
    (hA1 : '<' ∉ A) (hA2 : '>' ∉ A)
    (hP2 : '>' ∉ P) (hP3 : '\n' ∉ P)
    (hB1 : '<' ∉ B)
    (hnb : containsBB (A ++ '<' :: P ++ '>' :: B) = false) :
    ∀ (cs : List (List Char)) (D : List Char) (story : List (List Char)),
      D ++ cs.flatten = A ++ '<' :: P ++ '>' :: B → '>' ∉ D →
      ((runChunks ⟨D, story⟩ cs).2).filter Frame.isImage =
        [Frame.storyImage P] := by
  intro cs
  induction cs with
  | nil =>
    intro D story heq hD
    exfalso
    apply hD
    rw [List.flatten_nil, List.append_nil] at heq
    rw [heq]
    simp
  | cons c cs ih =>
    intro D story heq hD
    have heq' : (D ++ c) ++ cs.flatten = A ++ '<' :: P ++ '>' :: B := by
      rw [List.flatten_cons, ← List.append_assoc] at heq
      exact heq
    by_cases hg : '>' ∈ D ++ c
    · -- the closing bracket has arrived in this pass
      have hu : '>' ∉ A ++ '<' :: P := by
        simp only [List.mem_append, List.mem_cons, not_or]
        exact ⟨hA2, by decide, hP2⟩
      have heq'' : (D ++ c) ++ cs.flatten = (A ++ '<' :: P) ++ '>' :: B := by
        rw [heq']
      obtain ⟨B1, hx, hB⟩ := splitAtChar (A ++ '<' :: P) (D ++ c) B
        cs.flatten '>' heq'' hu hg
      have hfd : findDirective (D ++ c) = some (A, P, B1) := by
        rw [hx, List.append_assoc, List.cons_append]
        exact findDirective_eq A P B1 hA1 hP2 hP3
      have hstep := processTextChunk_dir ⟨D, story⟩ c A P B1
        (by simpa using hfd)
      have hAB1 : '<' ∉ A ++ B1 := by
        simp only [List.mem_append, not_or]
        refine ⟨hA1, fun hc => hB1 ?_⟩
        rw [hB]
        exact List.mem_append.mpr (Or.inl hc)
      have htext : '<' ∉ (segmentStage (A ++ B1) story).1 := by
        rcases segmentStage_fst (A ++ B1) story with h | h <;> rw [h]
        · simp
        · exact hAB1
      have hcs : ∀ c' ∈ cs, '<' ∉ c' := by
        intro c' hc' hmem
        apply hB1
        rw [hB]
        exact List.mem_append.mpr (Or.inr (List.mem_flatten.mpr ⟨c', hc', hmem⟩))
      have hrest := runChunks_no_image cs ⟨(segmentStage (A ++ B1) story).1,
        (segmentStage (A ++ B1) story).2.1⟩ htext hcs
      rw [runChunks_cons, processFrame_text]
      simp only [hstep]
      simp only at hrest
      rw [List.cons_append, List.filter_cons, List.filter_append, hrest,
        List.append_nil]
      simp [Frame.isImage, segmentStage_filter_image]
    · -- still waiting for the closing bracket
      have hfd : findDirective (D ++ c) = none :=
        findDirective_none_of_no_gt _ hg
      have hnb' : containsBB (D ++ c) = false := by
        by_contra hcb
        have h1 : containsBB (D ++ c) = true := by
          rwa [Bool.not_eq_false] at hcb
        have h2 := containsBB_append_left (D ++ c) cs.flatten h1
        rw [heq'] at h2
        rw [h2] at hnb
        exact absurd hnb (by simp)
      have hseg : segmentStage (D ++ c) story = (D ++ c, story, []) := by
        simp [segmentStage, hnb']
      have hstep := processTextChunk_no_dir ⟨D, story⟩ c (by simpa using hfd)
      rw [runChunks_cons, processFrame_text]
      simp only [hstep]
      simp only [hseg]
      simp only [List.nil_append]
      exact ih (D ++ c) story heq' hg

/-- C1: for every sequence of text chunks whose concatenation contains
exactly one well-formed angle-bracket directive (a single opening bracket,
a single closing bracket after it, no newline between them) and no break
marker, the processor emits exactly one StoryImageFrame, and its text is
the inner payload with the delimiters removed, regardless of how the
concatenation is split into chunks. -/
theorem directive_unique_emission
    (chunks : List (List Char)) (A P B : List Char)
    (story : List (List Char))
    (hsplit : chunks.flatten = A ++ '<' :: P ++ '>' :: B)
    (hA1 : '<' ∉ A) (hA2 : '>' ∉ A)
    (hP1 : '<' ∉ P) (hP2 : '>' ∉ P) (hP3 : '\n' ∉ P)
    (hB1 : '<' ∉ B) (hB2 : '>' ∉ B)
    (hnb : containsBB chunks.flatten = false) :
    ((runChunks ⟨[], story⟩ chunks).2).filter Frame.isImage =
      [Frame.storyImage P] := by
  have hnb' : containsBB (A ++ '<' :: P ++ '>' :: B) = false := by
    rw [← hsplit]; exact hnb
  exact runChunks_one_image A P B hA1 hA2 hP2 hP3 hB1 hnb' chunks [] story
    (by simpa using hsplit) (by simp)

/-- Witness for C1 at a concrete split of the directive across two
chunks. -/
theorem directive_unique_emission_witness :
    ((runChunks ⟨[], []⟩ [str "a<b", str "c>d"]).2).filter Frame.isImage =
      [Frame.storyImage (str "bc")] :=
  directive_unique_emission [str "a<b", str "c>d"] (str "a") (str "bc")
    (str "d") [] (by decide) (by decide) (by decide) (by decide) (by decide)
    (by decide) (by decide) (by decide) (by decide)

/-- C2 counterexample: a fully uppercase break marker satisfies the claim
hypotheses (a break marker in some letter case, no directive, normalized
length above two) yet the processor appends no segment and emits nothing,
because the search pattern only accepts a lowercase or capitalized
marker. -/
theorem segment_any_case_counterexample :
    containsCI (str "Hello world[BREAK]") = true ∧
    findDirective (str "Hello world[BREAK]") = none ∧
    2 < (nlToSpace (removeBreaks (str "Hello world[BREAK]"))).length ∧
    (runChunks ⟨[], []⟩ [str "Hello world[BREAK]"]).1.story = [] ∧
    (runChunks ⟨[], []⟩ [str "Hello world[BREAK]"]).2 = [] := by decide

/-- C2 amended: for a single chunk processed from an empty buffer that
contains a break marker in the accepted spellings (lowercase or
capitalized first letter), no complete directive, and whose text after
removing all case-insensitive break markers and folding newlines has
length above two, exactly one segment is appended to the story and
exactly one StoryPageFrame plus exactly one assistant-turn cue message
are emitted. -/
theorem segment_single_chunk_emission (c : List Char)
    (story : List (List Char))
    (h1 : containsBB c = true)
    (h2 : findDirective c = none)
    (h3 : 2 < (nlToSpace (removeBreaks c)).length) :
    processTextChunk ⟨[], story⟩ c =
      (⟨[], story ++ [nlToSpace (removeBreaks c)]⟩,
       [Frame.storyPage (nlToSpace (removeBreaks c)),
        Frame.dailyTransportMessage Cue.assistantTurn]) := by
  simp [processTextChunk, directiveStage, h2, segmentStage, h1, h3]

/-- Witness for the amended C2. -/
theorem segment_single_chunk_emission_witness :
    processTextChunk ⟨[], []⟩ (str "One[break]") =
      (⟨[], [str "One"]⟩,
       [Frame.storyPage (str "One"),
        Frame.dailyTransportMessage Cue.assistantTurn]) :=
  segment_single_chunk_emission (str "One[break]") [] (by decide)
    (by decide) (by decide)

/-- C3: a full-response-end signal always emits, in order, a
StoryPromptFrame carrying the current buffer, the original signal itself,
the user-turn cue message and the cached listening sound, and it clears
the buffer, for every buffer state including the empty one. -/
theorem response_end_flush (st : State) :
    processFrame st .llmFullResponseEnd =
      (⟨[], st.story⟩,
       [.storyPrompt st.text, .llmFullResponseEnd,
        .dailyTransportMessage .userTurn, .sound (str "listening")]) := rfl

/-- C4: in a pass whose directive search succeeds, the single emitted
image request heads the output list (so directive extraction precedes
segment extraction), the segment stage emits no image request, and any
story entry appended in the pass is computed from the buffer with the
whole matched directive span removed, so the payload does not leak into
segment text. -/
theorem directive_priority (st : State) (c a p r : List Char)
    (hfd : findDirective (st.text ++ c) = some (a, p, r)) :
    (processTextChunk st c).2 =
      Frame.storyImage p :: (segmentStage (a ++ r) st.story).2.2 ∧
    ((segmentStage (a ++ r) st.story).2.2).filter Frame.isImage = [] ∧
    ((processTextChunk st c).1.story = st.story ∨
      (processTextChunk st c).1.story =
        st.story ++ [nlToSpace (removeBreaks (a ++ r))]) := by
  have hstep := processTextChunk_dir st c a p r hfd
  refine ⟨by rw [hstep], segmentStage_filter_image _ _, ?_⟩
  rw [hstep]
  rw [segmentStage]
  split_ifs <;> simp

/-- Witness for C4 on a buffer holding both a directive and a break. -/
theorem directive_priority_witness :
    (processTextChunk ⟨[], []⟩ (str "x<p>y[break]ok")).2 =
      Frame.storyImage (str "p") ::
        (segmentStage (str "x" ++ str "y[break]ok") []).2.2 ∧
    ((segmentStage (str "x" ++ str "y[break]ok") []).2.2).filter
        Frame.isImage = [] ∧
    ((processTextChunk ⟨[], []⟩ (str "x<p>y[break]ok")).1.story = [] ∨
      (processTextChunk ⟨[], []⟩ (str "x<p>y[break]ok")).1.story =
        [] ++ [nlToSpace (removeBreaks (str "x" ++ str "y[break]ok"))]) :=
  directive_priority ⟨[], []⟩ (str "x<p>y[break]ok") (str "x") (str "p")
    (str "y[break]ok") (by decide)

/-- C5 counterexample: resolving a directive does not clear the buffer to
the empty string; the text around the matched span stays behind. -/
theorem directive_residual_counterexample :
    (processTextChunk ⟨[], []⟩ (str "ab<p>cd")).2 =
      [Frame.storyImage (str "p")] ∧
    (processTextChunk ⟨[], []⟩ (str "ab<p>cd")).1.text = str "abcd" ∧
    str "abcd" ≠ [] := by decide

/-- C5 amended: in a text pass the buffer is first extended by the chunk,
then the directive stage removes at most the matched span, and the buffer
is cleared exactly when the remaining text holds an accepted break marker;
a full-response-end signal also clears it, and a user-stop signal never
touches it. -/
theorem buffer_evolution (st : State) (c : List Char) :
    (processTextChunk st c).1.text =
      (if containsBB (directiveStage (st.text ++ c)).1 then []
       else (directiveStage (st.text ++ c)).1) ∧
    (processFrame st .llmFullResponseEnd).1.text = [] ∧
    (processFrame st .userStoppedSpeaking).1.text = st.text := by
  refine ⟨?_, rfl, rfl⟩
  simp only [processTextChunk]
  rw [segmentStage]
  split_ifs <;> simp

/-- C6 counterexample: a chunk with an unclosed directive marker and a
break marker does not leave the buffer equal to the appended chunk; the
segment stage still fires and clears it. -/
theorem incomplete_directive_counterexample :
    '<' ∈ str "ab<cd[break]efgh" ∧
    findDirective (str "ab<cd[break]efgh") = none ∧
    (processTextChunk ⟨[], []⟩ (str "ab<cd[break]efgh")).1.text = [] ∧
    ([] : List Char) ≠ str "ab<cd[break]efgh" := by decide

/-- C6 amended: when the buffer after appending the chunk holds an opening
bracket but no complete directive, and no accepted break marker either,
the pass emits nothing and leaves the buffer exactly equal to the old
buffer plus the chunk; the incomplete directive is not an error. -/
theorem incomplete_directive_stall (st : State) (c : List Char)
    (h0 : '<' ∈ st.text ++ c)
    (h1 : findDirective (st.text ++ c) = none)
    (h2 : containsBB (st.text ++ c) = false) :
    processTextChunk st c = (⟨st.text ++ c, st.story⟩, []) := by
  rw [processTextChunk_no_dir st c h1]
  simp [segmentStage, h2]

/-- Witness for the amended C6. -/
theorem incomplete_directive_stall_witness :
    processTextChunk ⟨[], []⟩ (str "ab<cd") = (⟨str "ab<cd", []⟩, []) :=
  incomplete_directive_stall ⟨[], []⟩ (str "ab<cd") (by decide) (by decide)
    (by decide)

/-- C7: when the pass resolves a break but the normalized text has length
at most two, nothing is appended to the story, no StoryPageFrame and no
cue message is emitted, and the buffer is still cleared. -/
theorem noise_segment_dropped (st : State) (c : List Char)
    (h1 : containsBB (directiveStage (st.text ++ c)).1 = true)
    (h2 : ¬ 2 <
      (nlToSpace (removeBreaks (directiveStage (st.text ++ c)).1)).length) :
    (processTextChunk st c).1.story = st.story ∧
    (processTextChunk st c).1.text = [] ∧
    ((processTextChunk st c).2).filter Frame.isPage = [] ∧
    ((processTextChunk st c).2).filter Frame.isDtm = [] := by
  cases hfd : findDirective (st.text ++ c) with
  | none =>
    rw [processTextChunk_no_dir st c hfd]
    simp only [directiveStage, hfd] at h1 h2
    have hseg : segmentStage (st.text ++ c) st.story = ([], st.story, []) := by
      simp [segmentStage, h1, h2]
    simp [hseg]
  | some apr =>
    obtain ⟨a, p, r⟩ := apr
    rw [processTextChunk_dir st c a p r hfd]
    simp only [directiveStage, hfd] at h1 h2
    have hseg : segmentStage (a ++ r) st.story = ([], st.story, []) := by
      simp [segmentStage, h1, h2]
    simp [hseg, Frame.isPage, Frame.isDtm]

/-- Witness for C7: a break with only one surrounding character. -/
theorem noise_segment_dropped_witness :
    (processTextChunk ⟨[], []⟩ (str "a[break]")).1.story = [] ∧
    (processTextChunk ⟨[], []⟩ (str "a[break]")).1.text = [] ∧
    ((processTextChunk ⟨[], []⟩ (str "a[break]")).2).filter
      Frame.isPage = [] ∧
    ((processTextChunk ⟨[], []⟩ (str "a[break]")).2).filter
      Frame.isDtm = [] :=
  noise_segment_dropped ⟨[], []⟩ (str "a[break]") (by decide) (by decide)

/-- C8 counterexample: the concrete three-chunk scenario does not produce
the event sequence the claim expects; in particular the image request is
emitted before the first segment, and the segment texts differ. -/
theorem scenario_counterexample :
    (runChunks ⟨[], []⟩ [str "Once upon a time. ",
        str "[break] <a castle at sunset> ",
        str "The princess woke up.[break]"]).2 ≠
      [Frame.storyPage (str "Once upon a time. "),
       Frame.dailyTransportMessage Cue.assistantTurn,
       Frame.storyImage (str "a castle at sunset"),
       Frame.storyPage (str " The princess woke up."),
       Frame.dailyTransportMessage Cue.assistantTurn] := by decide

/-- C8 amended: the scenario actually emits the image request first, then
the first segment with three trailing spaces (the removed marker and
directive leave their surrounding spaces behind), the assistant cue, then
the second segment without a leading space (the buffer was cleared at the
first break), and the cue again; the story holds exactly the two segment
texts in order. -/
theorem scenario_actual_run :
    runChunks ⟨[], []⟩ [str "Once upon a time. ",
        str "[break] <a castle at sunset> ",
        str "The princess woke up.[break]"] =
      (⟨[], [str "Once upon a time.   ", str "The princess woke up."]⟩,
       [Frame.storyImage (str "a castle at sunset"),
        Frame.storyPage (str "Once upon a time.   "),
        Frame.dailyTransportMessage Cue.assistantTurn,
        Frame.storyPage (str "The princess woke up."),
        Frame.dailyTransportMessage Cue.assistantTurn]) := by decide

/-- C10: a text frame and a user-stop frame are consumed, never forwarded
as themselves; among the recognized kinds only the full-response-end
signal is re-emitted; unrecognized frame kinds pass through unchanged with
no state change. -/
theorem input_consumption (st : State) (c : List Char) (m : Cue)
    (n : List Char) (i : Nat) :
    Frame.text c ∉ (processFrame st (.text c)).2 ∧
    Frame.userStoppedSpeaking ∉ (processFrame st .userStoppedSpeaking).2 ∧
    Frame.llmFullResponseEnd ∈ (processFrame st .llmFullResponseEnd).2 ∧
    processFrame st (.dailyTransportMessage m) =
      (st, [.dailyTransportMessage m]) ∧
    processFrame st (.sound n) = (st, [.sound n]) ∧
    processFrame st (.other i) = (st, [.other i]) := by
  refine ⟨?_, by simp [processFrame], by simp [processFrame], rfl, rfl, rfl⟩
  rw [processFrame_text]
  cases hfd : findDirective (st.text ++ c) with
  | none =>
    rw [processTextChunk_no_dir st c hfd]
    rw [segmentStage]
    split_ifs <;> simp
  | some apr =>
    obtain ⟨a, p, r⟩ := apr
    rw [processTextChunk_dir st c a p r hfd]
    rw [segmentStage]
    split_ifs <;> simp

example : findDirective (str "ab<cd>ef") =
    some (str "ab", str "cd", str "ef") := by decide

example : findDirective (str "a<b" ++ str "c>d") =
    some (str "a", str "bc", str "d") := by decide

example : findDirective (str "a<b\ncd<e>f") =
    some (str "a<b\ncd", str "e", str "f") := by decide

example : findDirective (str "<<a>") = some ([], str "<a", []) := by decide

example : findDirective (str "ab<cd") = none := by decide

example : containsBB (str "xx[Break]y") = true := by decide

example : containsBB (str "xx[BREAK]y") = false := by decide

example : containsCI (str "xx[BREAK]y") = true := by decide

example : removeBreaks (str "a[bReAk]b[BREAK]c") = str "abc" := by decide

example : removeBreaks (str "[b[break]reak]xyz") = str "[break]xyz" := by
  decide

end Pipecat
